import Mathlib

/-!
Verification of the scoped-state forking mechanism and the asynchronous task
registry of `AsyncLibrary/robot_async.py`.

The registry code (`ScopedContext`, `AsyncLibrary`) is embedded from
`src/AsyncLibrary/robot_async.py`.  The `ScopedValue` primitive lives in
`scoped_value.py`, which is not part of the provided sources; it is modelled
from the specification (data model §3 and operations §4.1).  Threads are
explicit identities (natural numbers) and interleavings are sequences of
operations, following the specification's own design note that the overlay
semantics be "testable from a single-threaded harness that fakes multiple
thread identities".
-/

namespace RobotAsync

/-- Pointwise update of a map modelled as a function into `Option`. -/
def upd {α : Type} (m : Nat → Option α) (k : Nat) (v : Option α) : Nat → Option α :=
  fun k' => if k' = k then v else m k'

theorem upd_same {α : Type} (m : Nat → Option α) (k : Nat) (v : Option α) :
    upd m k v k = v := by
  simp [upd]

theorem upd_other {α : Type} (m : Nat → Option α) (k k' : Nat) (v : Option α)
    (h : k' ≠ k) : upd m k v k' = m k' := by
  simp [upd, h]

/-- Modelled from the spec: `ScopedValue` (scoped_value.py is not among the
sources).  A single shared attribute slot presenting a per-thread value:
`default` is seen by threads with no activated fork, `forkvalue` optionally
seeds new forks, `forks` maps fork tokens to isolated values, `active` maps
thread identities to their currently activated token, and `nextToken` is the
allocator for fresh tokens. -/
structure ScopedValue (V : Type) where
  default : V
  forkvalue : Option V
  forks : Nat → Option V
  active : Nat → Option Nat
  nextToken : Nat

/-- Modelled from the spec: `fork()` allocates a fresh token whose value is
`forkvalue` if provided, else a copy of `default`; it does not affect any
thread's visibility. -/
def ScopedValue.fork {V : Type} (sv : ScopedValue V) : ScopedValue V × Nat :=
  let tok := sv.nextToken
  ({ sv with
      forks := upd sv.forks tok (some (sv.forkvalue.getD sv.default)),
      nextToken := tok + 1 },
   tok)

/-- Modelled from the spec: `activate(token)` binds the token as the calling
thread's active fork (`none` clears the binding, as after a kill). -/
def ScopedValue.activate {V : Type} (sv : ScopedValue V) (t : Nat) (c : Option Nat) :
    ScopedValue V :=
  { sv with active := upd sv.active t c }

/-- Modelled from the spec: `kill(token)` removes the token's forked value and
clears any thread's activation of it; safe even if the token was never
activated. -/
def ScopedValue.kill {V : Type} (sv : ScopedValue V) (tok : Nat) : ScopedValue V :=
  { sv with
      forks := upd sv.forks tok none,
      active := fun t => if sv.active t = some tok then none else sv.active t }

/-- Modelled from the spec: reading the slot from thread `t` resolves to
`forks[active[t]]` if present, else `default`. -/
def ScopedValue.read {V : Type} (sv : ScopedValue V) (t : Nat) : V :=
  match sv.active t with
  | some tok => (sv.forks tok).getD sv.default
  | none => sv.default

/-- Modelled from the spec: writing the slot from thread `t` targets the
thread's active fork when its storage is present, else `default`. -/
def ScopedValue.write {V : Type} (sv : ScopedValue V) (t : Nat) (v : V) : ScopedValue V :=
  match sv.active t with
  | some tok =>
      if (sv.forks tok).isSome then { sv with forks := upd sv.forks tok (some v) }
      else { sv with default := v }
  | none => { sv with default := v }

/-- One step of the shared slot's history: a fork, an activation, a kill, or a
mutation, each tagged with the explicit thread identity performing it. -/
inductive SlotOp (V : Type) where
  | fork
  | activate (t : Nat) (tok : Nat)
  | kill (tok : Nat)
  | write (t : Nat) (v : V)

def applySlotOp {V : Type} (sv : ScopedValue V) : SlotOp V → ScopedValue V
  | .fork => sv.fork.1
  | .activate t tok => sv.activate t (some tok)
  | .kill tok => sv.kill tok
  | .write t v => sv.write t v

def applySlotOps {V : Type} (sv : ScopedValue V) (ops : List (SlotOp V)) : ScopedValue V :=
  ops.foldl applySlotOp sv

/-- Operations that belong to other work items or the main thread, relative to
a worker `A` activated on token `ta`: they are not performed by `A`, never
kill `ta`, and never activate `ta` (the spec forbids activating a token that
is active for a different thread). -/
def NonInterfering {V : Type} (A ta : Nat) : SlotOp V → Prop
  | .fork => True
  | .activate t tok => t ≠ A ∧ tok ≠ ta
  | .kill tok => tok ≠ ta
  | .write t _ => t ≠ A

instance {V : Type} (A ta : Nat) (op : SlotOp V) : Decidable (NonInterfering A ta op) := by
  cases op <;> simp [NonInterfering] <;> infer_instance

/-- Invariant carried along a non-interfering history: `A` is activated on
`ta`, the fork's storage holds `va`, `ta` is a token the allocator has already
passed, and no other thread is activated on `ta`. -/
def IsolatedAt {V : Type} (sv : ScopedValue V) (A ta : Nat) (va : V) : Prop :=
  sv.active A = some ta ∧ sv.forks ta = some va ∧ ta < sv.nextToken ∧
    ∀ t, t ≠ A → sv.active t ≠ some ta

theorem isolatedAt_step {V : Type} {sv : ScopedValue V} {A ta : Nat} {va : V}
    (op : SlotOp V) (hinv : IsolatedAt sv A ta va) (hop : NonInterfering A ta op) :
    IsolatedAt (applySlotOp sv op) A ta va := by
  obtain ⟨hA, hfork, hlt, hothers⟩ := hinv
  cases op with
  | fork =>
      refine ⟨hA, ?_, ?_, hothers⟩
      · simpa [applySlotOp, ScopedValue.fork, upd_other _ _ _ _ (Nat.ne_of_lt hlt)]
      · exact Nat.lt_succ_of_lt hlt
  | activate t tok =>
      obtain ⟨htA, htok⟩ := hop
      refine ⟨?_, hfork, hlt, ?_⟩
      · simp only [applySlotOp, ScopedValue.activate]
        rw [upd_other _ _ _ _ (Ne.symm htA)]
        exact hA
      · intro t' ht'
        by_cases h : t' = t
        · subst h
          simp [applySlotOp, ScopedValue.activate, upd_same, htok]
        · rw [applySlotOp, ScopedValue.activate]
          simpa [upd_other _ _ _ _ h] using hothers t' ht'
  | kill tok =>
      refine ⟨?_, ?_, hlt, ?_⟩
      · simp only [applySlotOp, ScopedValue.kill]
        rw [hA]
        simp [Ne.symm hop]
      · simpa [applySlotOp, ScopedValue.kill, upd_other _ _ _ _ (Ne.symm hop)]
      · intro t' ht'
        simp only [applySlotOp, ScopedValue.kill]
        by_cases h : sv.active t' = some tok <;> simp [h, hothers t' ht']
  | write t v =>
      have htA : t ≠ A := hop
      have hkey : ∀ tok, sv.active t = some tok → tok ≠ ta := by
        intro tok htok hcontra
        exact hothers t htA (hcontra ▸ htok)
      simp only [applySlotOp, ScopedValue.write]
      split
      next tok hcase =>
        split
        next =>
          refine ⟨hA, ?_, hlt, hothers⟩
          show upd sv.forks tok (some v) ta = some va
          rw [upd_other _ _ _ _ (Ne.symm (hkey tok hcase))]
          exact hfork
        next => exact ⟨hA, hfork, hlt, hothers⟩
      next => exact ⟨hA, hfork, hlt, hothers⟩

theorem isolatedAt_ops {V : Type} {sv : ScopedValue V} {A ta : Nat} {va : V}
    (ops : List (SlotOp V)) (hinv : IsolatedAt sv A ta va)
    (hops : ∀ op ∈ ops, NonInterfering A ta op) :
    IsolatedAt (applySlotOps sv ops) A ta va := by
  induction ops generalizing sv with
  | nil => simpa [applySlotOps]
  | cons op rest ih =>
      have hstep := isolatedAt_step op hinv (hops op (List.mem_cons_self op rest))
      have := ih hstep (fun o ho => hops o (List.mem_cons_of_mem op ho))
      simpa [applySlotOps] using this

theorem isolatedAt_read {V : Type} {sv : ScopedValue V} {A ta : Nat} {va : V}
    (hinv : IsolatedAt sv A ta va) : sv.read A = va := by
  obtain ⟨hA, hfork, _, _⟩ := hinv
  simp [ScopedValue.read, hA, hfork]

/-- C1: a work item `A`, forked and activated on token `ta`, keeps reading its
own isolated value `va` no matter which forks, activations of other threads,
kills of other tokens, and writes by other threads are interleaved after it;
in particular no other item's writes, and no mutation of the shared default,
are observable through `A`'s activated view. -/
theorem scoped_isolation {V : Type} (sv : ScopedValue V) (A ta : Nat) (va : V)
    (ops : List (SlotOp V)) (hinv : IsolatedAt sv A ta va)
    (hops : ∀ op ∈ ops, NonInterfering A ta op) :
    (applySlotOps sv ops).read A = va ∧ sv.read A = va :=
  ⟨isolatedAt_read (isolatedAt_ops ops hinv hops), isolatedAt_read hinv⟩

/-- A concrete slot history: thread 0 is activated on token 0 holding value 7;
afterwards another fork is taken, thread 1 activates it, writes 99 through it,
writes 55 to the shared default, and the other fork is killed. -/
def svW : ScopedValue Nat :=
  { default := 3
    forkvalue := none
    forks := upd (fun _ => none) 0 (some 7)
    active := upd (fun _ => none) 0 (some 0)
    nextToken := 1 }

def opsW : List (SlotOp Nat) :=
  [.fork, .activate 1 1, .write 1 99, .kill 1, .write 2 55]

theorem scoped_isolation_witness :
    (applySlotOps svW opsW).read 0 = 7 ∧ svW.read 0 = 7 :=
  scoped_isolation svW 0 0 7 opsW
    (by
      refine ⟨rfl, rfl, Nat.zero_lt_one, ?_⟩
      intro t ht
      simp [svW, upd_other _ _ _ _ ht])
    (by
      intro op hop
      fin_cases hop <;> simp [NonInterfering])

/-- Applies `f` to each list element together with its index, counting from
`i`.  Used to act on the context's slot list position by position. -/
def mapIdxFrom {α : Type} (f : Nat → α → α) : Nat → List α → List α
  | _, [] => []
  | i, a :: l => f i a :: mapIdxFrom f (i + 1) l

theorem get?_mapIdxFrom {α : Type} (f : Nat → α → α) (j : Nat) (l : List α) (i : Nat) :
    (mapIdxFrom f j l).get? i = (l.get? i).map (f (j + i)) := by
  induction l generalizing j i with
  | nil => simp [mapIdxFrom]
  | cons a l ih =>
      cases i with
      | zero => simp [mapIdxFrom]
      | succ i =>
          simp only [mapIdxFrom, List.get?]
          rw [ih (j + 1) i]
          have harith : j + 1 + i = j + (i + 1) := by omega
          rw [harith]

theorem length_mapIdxFrom {α : Type} (f : Nat → α → α) (j : Nat) (l : List α) :
    (mapIdxFrom f j l).length = l.length := by
  induction l generalizing j with
  | nil => rfl
  | cons a l ih => simp [mapIdxFrom, ih]

/-- `ScopedContext` from robot_async.py: it records the fork token obtained
for each tracked attribute slot (one per path of `_attributes`, in order);
`kill` replaces the tokens by `None`.  The shared execution context itself is
modelled as the list of its tracked `ScopedValue` slots, indexed in the same
order. -/
structure ScopedContext where
  _forks : List (Option Nat)

/-- `ScopedContext.activate`: walks to each tracked slot and activates the
recorded fork token there for the calling thread `t`. -/
def ScopedContext.activate {V : Type} (sc : ScopedContext) (t : Nat)
    (ctx : List (ScopedValue V)) : List (ScopedValue V) :=
  mapIdxFrom (fun i sv =>
    match sc._forks.get? i with
    | some c => sv.activate t c
    | none => sv) 0 ctx

/-- `ScopedContext.kill`: kills every recorded non-`None` fork token on its
slot and leaves the context with all recorded tokens cleared to `None`, so a
second kill is a no-op. -/
def ScopedContext.kill {V : Type} (sc : ScopedContext) (ctx : List (ScopedValue V)) :
    List (ScopedValue V) × ScopedContext :=
  (mapIdxFrom (fun i sv =>
      match sc._forks.get? i with
      | some (some tok) => sv.kill tok
      | _ => sv) 0 ctx,
   ⟨sc._forks.map (fun _ => none)⟩)

/-- What the wrapper does to the scope, in order of occurrence. -/
inductive ScopeEvent where
  | activated
  | killed
deriving DecidableEq

/-- The worker's view of the shared context together with a log of the scope
operations performed on it. -/
structure World (V : Type) where
  ctx : List (ScopedValue V)
  log : List ScopeEvent

/-- `ScopedContext.__enter__`: activates the scope (and logs it). -/
def ScopedContext.enter {V : Type} (sc : ScopedContext) (t : Nat) (w : World V) : World V :=
  { ctx := sc.activate t w.ctx, log := w.log ++ [ScopeEvent.activated] }

/-- `ScopedContext.__exit__`: kills the scope (and logs it). -/
def ScopedContext.exit {V : Type} (sc : ScopedContext) (w : World V) :
    World V × ScopedContext :=
  ({ ctx := (sc.kill w.ctx).1, log := w.log ++ [ScopeEvent.killed] }, (sc.kill w.ctx).2)

/-- `AsyncLibrary._run` from robot_async.py: `with scope: return fn(*args)`.
Python's `with` runs `__enter__`, then the body, and runs `__exit__` both when
the body returns normally and when it raises, after which the exception
propagates.  The work item `body` may mutate the context and finishes with a
normal value or an exception. -/
def AsyncLibrary._run {V E A : Type} (scope : ScopedContext) (t : Nat)
    (body : World V → World V × Except E A) (w : World V) :
    (World V × ScopedContext) × Except E A :=
  match body (scope.enter t w) with
  | (w2, Except.ok a) => (scope.exit w2, Except.ok a)
  | (w2, Except.error e) => (scope.exit w2, Except.error e)

/-- C3: the wrapper submitted to the worker pool activates the item's scope,
runs the item, and kills the scope on every exit path: whether the work item
returns normally or raises, the scope log gains exactly one `activated`
followed by exactly one `killed`, the scope ends with all its tokens cleared,
and the item's own outcome passes through unchanged. -/
theorem run_scope_balance {V E A : Type} (scope : ScopedContext) (t : Nat)
    (body : World V → World V × Except E A) (w : World V)
    (hbody : ∀ w', ((body w').1).log = w'.log) :
    ((AsyncLibrary._run scope t body w).1.1).log
        = w.log ++ [ScopeEvent.activated, ScopeEvent.killed] ∧
      (∀ c ∈ ((AsyncLibrary._run scope t body w).1.2)._forks, c = Option.none) ∧
      (AsyncLibrary._run scope t body w).2 = (body (scope.enter t w)).2 := by
  rcases hb : body (scope.enter t w) with ⟨w2, r⟩
  have hlog2 : w2.log = w.log ++ [ScopeEvent.activated] := by
    have := hbody (scope.enter t w)
    rw [hb] at this
    simpa [ScopedContext.enter] using this
  have hgoal : AsyncLibrary._run scope t body w = (scope.exit w2, r) →
      ((AsyncLibrary._run scope t body w).1.1).log
          = w.log ++ [ScopeEvent.activated, ScopeEvent.killed] ∧
        (∀ c ∈ ((AsyncLibrary._run scope t body w).1.2)._forks, c = Option.none) ∧
        (AsyncLibrary._run scope t body w).2 = (body (scope.enter t w)).2 := by
    intro hrun
    rw [hrun, hb]
    refine ⟨?_, ?_, rfl⟩
    · simp [ScopedContext.exit, hlog2]
    · intro c hc
      simp only [ScopedContext.exit, ScopedContext.kill, List.mem_map] at hc
      obtain ⟨_, _, h⟩ := hc
      exact h.symm
  cases r with
  | ok a =>
      have h1 := hgoal (by unfold AsyncLibrary._run; rw [hb])
      rw [hb] at h1
      exact h1
  | error e =>
      have h1 := hgoal (by unfold AsyncLibrary._run; rw [hb])
      rw [hb] at h1
      exact h1

/-- A concrete wrapper run: the scope owns token 0 of the single slot and the
work item raises exception 42 without touching the scope log. -/
def scW : ScopedContext := ⟨[some 0]⟩

def wW : World Nat := ⟨[svW], []⟩

def bodyW : World Nat → World Nat × Except Nat Nat := fun w => (w, Except.error 42)

theorem run_scope_balance_witness :
    ((AsyncLibrary._run scW 5 bodyW wW).1.1).log
        = wW.log ++ [ScopeEvent.activated, ScopeEvent.killed] ∧
      (∀ c ∈ ((AsyncLibrary._run scW 5 bodyW wW).1.2)._forks, c = Option.none) ∧
      (AsyncLibrary._run scW 5 bodyW wW).2 = (bodyW (scW.enter 5 wW)).2 :=
  run_scope_balance scW 5 bodyW wW (fun _ => rfl)

/-- A parent object along one declared attribute path with final field `p`:
`plain` is the directly stored field (present before patching), `scoped` the
`_scoped_p` attribute once a `ScopedValue` is installed, and `patched`
records whether the class has been replaced by the descriptor-bearing
subclass. -/
structure PyParent (V : Type) where
  plain : Option V
  _scoped_p : Option (ScopedValue V)
  patched : Bool

/-- `getattr(parent, p)` as seen from thread `t`: after patching, the
descriptor resolves `p` through the installed `ScopedValue`; before, the
plain attribute is returned (`none` models AttributeError). -/
def getattrP {V : Type} (t : Nat) (obj : PyParent V) : Option V :=
  if obj.patched then obj._scoped_p.map (fun sv => sv.read t)
  else obj.plain

/-- One iteration of `ScopedContext.__init__` for a single attribute path
with final field `p` and construct seed `construct`: read the current value,
look up `_scoped_p`; when it is not already a `ScopedValue`, wrap the current
value (passing the `_construct` entry as fork seed), delete the plain
attribute and patch the class with a `ScopedDescriptor`; in both cases fork
the slot and return the token.  `none` models an AttributeError while
resolving the path. -/
def resolveOrInstall {V : Type} (t : Nat) (construct : Option V) (obj : PyParent V) :
    Option (PyParent V × Nat) :=
  match getattrP t obj with
  | none => none
  | some current =>
      match obj._scoped_p with
      | some sv =>
          let (sv', tok) := sv.fork
          some ({ obj with _scoped_p := some sv' }, tok)
      | none =>
          let sv : ScopedValue V :=
            { default := current, forkvalue := construct,
              forks := fun _ => none, active := fun _ => none, nextToken := 0 }
          let (sv', tok) := sv.fork
          some ({ plain := none, _scoped_p := some sv', patched := true }, tok)

/-- C9: attribute-patch installation is idempotent.  Resolving a path whose
parent already carries an installed `ScopedValue` redirect reuses that slot:
the result only forks the existing slot (keeping its default and fork seed),
and the parent is not wrapped or patched again. -/
theorem resolveOrInstall_idempotent {V : Type} (t : Nat) (construct : Option V)
    (obj : PyParent V) (sv : ScopedValue V)
    (hs : obj._scoped_p = some sv) (hp : obj.patched = true) :
    resolveOrInstall t construct obj
        = some ({ obj with _scoped_p := some sv.fork.1 }, sv.fork.2) ∧
      sv.fork.1.default = sv.default ∧ sv.fork.1.forkvalue = sv.forkvalue := by
  refine ⟨?_, rfl, rfl⟩
  simp [resolveOrInstall, getattrP, hp, hs]

/-- A parent with an already installed redirect for its field. -/
def objW : PyParent Nat := { plain := none, _scoped_p := some svW, patched := true }

theorem resolveOrInstall_idempotent_witness :
    resolveOrInstall 0 (some 9) objW
        = some ({ objW with _scoped_p := some svW.fork.1 }, svW.fork.2) ∧
      svW.fork.1.default = svW.default ∧ svW.fork.1.forkvalue = svW.forkvalue :=
  resolveOrInstall_idempotent 0 (some 9) objW svW rfl rfl

/-- A future as produced by `async_run`'s `executor.submit`: `started` says
whether the pool has begun running the wrapper, `done` whether it completes
within the deadline the caller waits on, `result` is the work item's outcome,
and `_scope` the `ScopedContext` the registry attached (`future._scope`). -/
structure Future (V E : Type) where
  started : Bool
  done : Bool
  result : Except E V
  _scope : ScopedContext

/-- `Future.cancel()` of concurrent.futures: succeeds only when the work has
not yet started running and has not finished. -/
def Future.cancel {V E : Type} (f : Future V E) : Bool :=
  !f.started && !f.done

/-- `dict[k]` lookup over the insertion-ordered `handle -> future` mapping. -/
def dictLookup {α : Type} : List (Nat × α) → Nat → Option α
  | [], _ => none
  | (k', v) :: rest, k => if k = k' then some v else dictLookup rest k

/-- `dict.pop(k)`: the value stored at `k` together with the dict with that
key removed; `none` models the KeyError branch. -/
def dictPop {α : Type} : List (Nat × α) → Nat → Option (α × List (Nat × α))
  | [], _ => none
  | (k', v) :: rest, k =>
      if k = k' then some (v, rest)
      else (dictPop rest k).map (fun p => (p.1, (k', v) :: p.2))

/-- The registry state of `AsyncLibrary`: the `handle -> future` dict
(insertion-ordered, keys unique) and the monotone handle counter, both only
touched under `self._lock`. -/
structure AsyncLibrary (V E : Type) where
  _future : List (Nat × Future V E)
  _last_thread_handle : Nat

/-- `AsyncLibrary.async_run`: submits the wrapped work item to the pool and,
under the lock, hands out the current counter value as the handle, increments
the counter and registers the future under the handle. -/
def AsyncLibrary.async_run {V E : Type} (st : AsyncLibrary V E) (fut : Future V E) :
    AsyncLibrary V E × Nat :=
  let handle := st._last_thread_handle
  ({ _future := st._future ++ [(handle, fut)],
     _last_thread_handle := handle + 1 },
   handle)

/-- Errors `async_get` can raise: the ValueError for an unknown handle, the
TimeoutError of `future.result(timeout)`, or the work item's own re-raised
exception. -/
inductive GetError (E : Type) where
  | valueError (msg : String)
  | timeoutError
  | raised (e : E)

/-- `future.result(timeout)`: with no timeout, blocks until the future
completes; with a timeout, yields TimeoutError unless the future is done in
time.  Completion delivers the work item's value or re-raises its
exception. -/
def Future.resultWithin {V E : Type} (f : Future V E) (timeout : Option Nat) :
    Except (GetError E) V :=
  match timeout with
  | none =>
      match f.result with
      | Except.ok v => Except.ok v
      | Except.error e => Except.error (GetError.raised e)
  | some _ =>
      if f.done then
        match f.result with
        | Except.ok v => Except.ok v
        | Except.error e => Except.error (GetError.raised e)
      else Except.error GetError.timeoutError

/-- `AsyncLibrary.async_get`: pops the handle's entry — raising
`ValueError(f'entry with handle {handle} does not exist')` when the handle is
unknown — and only then waits on the popped future up to the timeout. -/
def AsyncLibrary.async_get {V E : Type} (st : AsyncLibrary V E) (handle : Nat)
    (timeout : Option Nat) : AsyncLibrary V E × Except (GetError E) V :=
  match dictPop st._future handle with
  | none =>
      (st, Except.error (GetError.valueError
        ("entry with handle " ++ toString handle ++ " does not exist")))
  | some (future, rest) =>
      ({ st with _future := rest }, future.resultWithin timeout)

/-- Errors `async_get_all` can raise: the AttributeError produced by the
restore line (see `async_get_all`), the TimeoutError it meant to raise, or
the first completed item's re-raised exception. -/
inductive GetAllError (E : Type) where
  | attributeError (msg : String)
  | timeoutError (msg : String)
  | raised (e : E)

/-- The first exception re-raised by the loop `for f in result.done:
f.result()`. -/
def firstRaised {V E : Type} : List (Future V E) → Option E
  | [] => none
  | f :: rest =>
      match f.result with
      | Except.error e => some e
      | Except.ok _ => firstRaised rest

/-- `AsyncLibrary.async_get_all`: under the lock, snapshots `self._future`
into `future` and clears it, then waits on `futures = list(future.values())`
(`wait` with no timeout blocks until every future is done).  Afterwards:
* if some futures are unfinished, the source evaluates
  `{k: v for k, v in futures.items() if v in result.not_done}` — but
  `futures` is a list, which has no `.items()` method, so an AttributeError
  is raised with the registry left cleared, before the restore or the
  `raise TimeoutError(f'... futures unfinished')` line can run;
* otherwise the loop over `result.done` re-raises the first failure among
  the completed items, and the function returns `None` when there is none. -/
def AsyncLibrary.async_get_all {V E : Type} (st : AsyncLibrary V E)
    (timeout : Option Nat) : AsyncLibrary V E × Except (GetAllError E) Unit :=
  let futures := st._future.map (fun kv => kv.2)
  let not_done : List (Future V E) :=
    match timeout with
    | none => []
    | some _ => futures.filter (fun f => !f.done)
  let doneList : List (Future V E) :=
    match timeout with
    | none => futures
    | some _ => futures.filter (fun f => f.done)
  ({ st with _future := [] },
   if not_done.isEmpty then
     match firstRaised doneList with
     | some e => Except.error (GetAllError.raised e)
     | none => Except.ok ()
   else Except.error (GetAllError.attributeError
     "list object has no attribute items"))

/-- `AsyncLibrary._wait_all` (run by the `_end_suite` and `_close` listener
hooks): under the lock, tries to cancel every registered future — killing the
scope of each successfully cancelled one on the spot, collecting the others —
then clears the registry; the collected futures are waited on outside the
lock.  No branch inspects `result` values, so nothing is re-raised to the
shutdown caller: the embedding is a total function returning the new registry
state, the context after the synchronous scope kills, and the futures that
are waited on to complete naturally.  `waitStep` is the loop body: cancel the
future — on success kill its scope on the spot, on failure collect it. -/
def AsyncLibrary.waitStep {V E : Type}
    (acc : List (ScopedValue V) × List (Future V E)) (kv : Nat × Future V E) :
    List (ScopedValue V) × List (Future V E) :=
  if kv.2.cancel then ((kv.2._scope.kill acc.1).1, acc.2)
  else (acc.1, acc.2 ++ [kv.2])

def AsyncLibrary._wait_all {V E : Type} (st : AsyncLibrary V E)
    (ctx : List (ScopedValue V)) :
    AsyncLibrary V E × List (ScopedValue V) × List (Future V E) :=
  let r := st._future.foldl AsyncLibrary.waitStep (ctx, [])
  ({ st with _future := [] }, r.1, r.2)

/-- One registry operation, as serialized by `self._lock`: an arbitrary
interleaving of calls from any threads is a sequence of these. -/
inductive RegOp (V E : Type) where
  | run (fut : Future V E)
  | get (handle : Nat) (timeout : Option Nat)
  | getAll (timeout : Option Nat)
  | waitAll (ctx : List (ScopedValue V))

/-- Effect of one registry operation on the state, together with the handle
it hands out when it is a dispatch. -/
def regStep {V E : Type} (st : AsyncLibrary V E) :
    RegOp V E → AsyncLibrary V E × Option Nat
  | RegOp.run fut => ((st.async_run fut).1, some (st.async_run fut).2)
  | RegOp.get h tmo => ((st.async_get h tmo).1, none)
  | RegOp.getAll tmo => ((st.async_get_all tmo).1, none)
  | RegOp.waitAll ctx => ((st._wait_all ctx).1, none)

/-- Runs a whole interleaving and collects the handles handed out, in
order. -/
def runTrace {V E : Type} (st : AsyncLibrary V E) :
    List (RegOp V E) → AsyncLibrary V E × List Nat
  | [] => (st, [])
  | op :: ops =>
      ((runTrace (regStep st op).1 ops).1,
       (regStep st op).2.toList ++ (runTrace (regStep st op).1 ops).2)

theorem regStep_counter_mono {V E : Type} (st : AsyncLibrary V E) (op : RegOp V E) :
    st._last_thread_handle ≤ ((regStep st op).1)._last_thread_handle := by
  cases op with
  | run fut => exact Nat.le_succ _
  | get h tmo =>
      simp only [regStep, AsyncLibrary.async_get]
      rcases hp : dictPop st._future h with _ | p
      · exact Nat.le_refl _
      · exact Nat.le_refl _
  | getAll tmo => exact Nat.le_refl _
  | waitAll ctx => exact Nat.le_refl _

theorem runTrace_lower_bound {V E : Type} (ops : List (RegOp V E))
    (st : AsyncLibrary V E) :
    ∀ h ∈ (runTrace st ops).2, st._last_thread_handle ≤ h := by
  induction ops generalizing st with
  | nil => simp [runTrace]
  | cons op rest ih =>
      intro h hh
      simp only [runTrace, List.mem_append] at hh
      rcases hh with hh | hh
      · cases op with
        | run fut =>
            simp only [regStep, Option.toList, List.mem_singleton] at hh
            exact Nat.le_of_eq hh.symm
        | get hd tmo => simp [regStep] at hh
        | getAll tmo => simp [regStep] at hh
        | waitAll ctx => simp [regStep] at hh
      · exact Nat.le_trans (regStep_counter_mono st op) (ih (regStep st op).1 h hh)

/-- Whether the operation is a dispatch. -/
def RegOp.isRun {V E : Type} : RegOp V E → Bool
  | RegOp.run _ => true
  | _ => false

/-- C4: over any serialized interleaving of dispatches and retrievals, the
handles handed out are strictly increasing in dispatch order — hence pairwise
distinct and never reused for the lifetime of the registry — and dispatching
N items yields exactly N handles. -/
theorem handles_strictly_increasing {V E : Type} (st : AsyncLibrary V E)
    (ops : List (RegOp V E)) :
    ((runTrace st ops).2).Pairwise (· < ·) ∧
      (runTrace st ops).2.length = ops.countP RegOp.isRun := by
  induction ops generalizing st with
  | nil => simp [runTrace]
  | cons op rest ih =>
      obtain ⟨ihp, ihl⟩ := ih (regStep st op).1
      cases op with
      | run fut =>
          constructor
          · simp only [runTrace, regStep, Option.toList, List.singleton_append,
              List.pairwise_cons]
            refine ⟨?_, ihp⟩
            intro h hh
            have := runTrace_lower_bound rest (regStep st (RegOp.run fut)).1 h hh
            simp only [regStep, AsyncLibrary.async_run] at this
            exact Nat.lt_of_succ_le this
          · simp only [runTrace, regStep, Option.toList, List.singleton_append,
              List.length_cons, List.countP_cons, RegOp.isRun]
            have hone : (if True then 1 else 0) = 1 := rfl
            rw [hone, Nat.add_right_cancel_iff]
            exact ihl
      | get hd tmo =>
          refine ⟨by simpa [runTrace, regStep] using ihp, ?_⟩
          simp only [runTrace, List.countP_cons]
          simp [regStep, RegOp.isRun]
          exact ihl
      | getAll tmo =>
          refine ⟨by simpa [runTrace, regStep] using ihp, ?_⟩
          simp only [runTrace, List.countP_cons]
          simp [regStep, RegOp.isRun]
          exact ihl
      | waitAll ctx =>
          refine ⟨by simpa [runTrace, regStep] using ihp, ?_⟩
          simp only [runTrace, List.countP_cons]
          simp [regStep, RegOp.isRun]
          exact ihl

theorem dictLookup_eq_none_of_not_mem {α : Type} (l : List (Nat × α)) (k : Nat)
    (h : k ∉ l.map Prod.fst) : dictLookup l k = none := by
  induction l with
  | nil => rfl
  | cons kv rest ih =>
      obtain ⟨k', v⟩ := kv
      simp only [List.map_cons, List.mem_cons, not_or] at h
      simp only [dictLookup, if_neg h.1]
      exact ih h.2

theorem dictPop_eq_none_iff {α : Type} (l : List (Nat × α)) (k : Nat) :
    dictPop l k = none ↔ dictLookup l k = none := by
  induction l with
  | nil => simp [dictPop, dictLookup]
  | cons kv rest ih =>
      obtain ⟨k', v⟩ := kv
      by_cases h : k = k' <;>
        simp [dictPop, dictLookup, h, ih, Option.map_eq_none']

theorem dictPop_lookup_eq_none {α : Type} (l : List (Nat × α)) (k : Nat)
    (v : α) (rest : List (Nat × α)) (hnd : (l.map Prod.fst).Nodup)
    (h : dictPop l k = some (v, rest)) : dictLookup rest k = none := by
  induction l generalizing v rest with
  | nil => simp [dictPop] at h
  | cons kv tl ih =>
      obtain ⟨k', v'⟩ := kv
      simp only [List.map_cons, List.nodup_cons] at hnd
      by_cases hk : k = k'
      · subst hk
        simp only [dictPop, if_pos rfl] at h
        have h2 := Option.some.inj h
        have hrest : tl = rest := congrArg Prod.snd h2
        rw [← hrest]
        exact dictLookup_eq_none_of_not_mem tl k hnd.1
      · simp only [dictPop, if_neg hk] at h
        rcases hp : dictPop tl k with _ | p
        · rw [hp] at h
          simp at h
        · rw [hp] at h
          obtain ⟨v0, rest0⟩ := p
          simp only [Option.map_some'] at h
          have h2 := Option.some.inj h
          have hv : v0 = v := congrArg Prod.fst h2
          have hrest : (k', v') :: rest0 = rest := congrArg Prod.snd h2
          rw [← hrest]
          simp only [dictLookup, if_neg hk]
          exact ih v0 rest0 hnd.2 hp

/-- C6: retrieval by handle is single-use: `async_get` removes the handle's
entry, and a second get on the same handle — like any unknown handle — fails
with the ValueError whose message names the offending handle. -/
theorem async_get_single_use {V E : Type} (st : AsyncLibrary V E) (handle : Nat)
    (tmo1 tmo2 : Option Nat) (hnd : (st._future.map Prod.fst).Nodup)
    (hknown : dictLookup st._future handle ≠ none) :
    dictLookup ((st.async_get handle tmo1).1)._future handle = none ∧
      ((st.async_get handle tmo1).1.async_get handle tmo2).2
        = Except.error (GetError.valueError
            ("entry with handle " ++ toString handle ++ " does not exist")) := by
  rcases hp : dictPop st._future handle with _ | pr
  · exact absurd ((dictPop_eq_none_iff _ _).mp hp) hknown
  obtain ⟨f, rest⟩ := pr
  have hget : (st.async_get handle tmo1).1 = { st with _future := rest } := by
    simp [AsyncLibrary.async_get, hp]
  have hnone : dictLookup rest handle = none :=
    dictPop_lookup_eq_none st._future handle f rest hnd hp
  have hpop2 : dictPop rest handle = none := (dictPop_eq_none_iff _ _).mpr hnone
  constructor
  · rw [hget]
    exact hnone
  · rw [hget]
    simp [AsyncLibrary.async_get, hpop2]

/-- A registry with one completed entry under handle 0. -/
def futOkW : Future Nat Nat :=
  { started := true, done := true, result := Except.ok 11, _scope := ⟨[some 0]⟩ }

def stGetW : AsyncLibrary Nat Nat :=
  { _future := [(0, futOkW)], _last_thread_handle := 1 }

theorem async_get_single_use_witness :
    dictLookup ((stGetW.async_get 0 none).1)._future 0 = none ∧
      ((stGetW.async_get 0 none).1.async_get 0 none).2
        = Except.error (GetError.valueError
            ("entry with handle " ++ toString 0 ++ " does not exist")) :=
  async_get_single_use stGetW 0 none none (by simp [stGetW])
    (by simp [stGetW, dictLookup])

/-- C8: a single get with a timeout pops the entry before waiting; when the
future is not done within the timeout the call fails with TimeoutError, the
popped entry is not restored to the registry, and the handle is subsequently
unknown. -/
theorem async_get_timeout_discards {V E : Type} (st : AsyncLibrary V E)
    (handle T : Nat) (tmo2 : Option Nat) (f : Future V E)
    (rest : List (Nat × Future V E)) (hnd : (st._future.map Prod.fst).Nodup)
    (hpop : dictPop st._future handle = some (f, rest))
    (hnotdone : f.done = false) :
    st.async_get handle (some T)
        = ({ st with _future := rest }, Except.error GetError.timeoutError) ∧
      dictLookup rest handle = none ∧
      (AsyncLibrary.async_get { st with _future := rest } handle tmo2).2
        = Except.error (GetError.valueError
            ("entry with handle " ++ toString handle ++ " does not exist")) := by
  have hnone : dictLookup rest handle = none :=
    dictPop_lookup_eq_none st._future handle f rest hnd hpop
  have hpop2 : dictPop rest handle = none := (dictPop_eq_none_iff _ _).mpr hnone
  refine ⟨?_, hnone, ?_⟩
  · simp [AsyncLibrary.async_get, hpop, Future.resultWithin, hnotdone]
  · simp [AsyncLibrary.async_get, hpop2]

/-- A registry with one still-running entry under handle 4. -/
def futPendingW : Future Nat Nat :=
  { started := true, done := false, result := Except.ok 0, _scope := ⟨[some 0]⟩ }

def stTimeoutW : AsyncLibrary Nat Nat :=
  { _future := [(4, futPendingW)], _last_thread_handle := 5 }

theorem async_get_timeout_discards_witness :
    stTimeoutW.async_get 4 (some 2)
        = ({ stTimeoutW with _future := [] }, Except.error GetError.timeoutError) ∧
      dictLookup ([] : List (Nat × Future Nat Nat)) 4 = none ∧
      (({ stTimeoutW with _future := [] } : AsyncLibrary Nat Nat).async_get 4 none).2
        = Except.error (GetError.valueError
            ("entry with handle " ++ toString 4 ++ " does not exist")) :=
  async_get_timeout_discards stTimeoutW 4 2 none futPendingW []
    (by simp [stTimeoutW]) rfl rfl

/-- Three dispatched items: two completed, one still unfinished at the
deadline of the bulk wait. -/
def futDoneA : Future Nat Nat :=
  { started := true, done := true, result := Except.ok 1, _scope := ⟨[some 0]⟩ }

def futDoneB : Future Nat Nat :=
  { started := true, done := true, result := Except.ok 2, _scope := ⟨[some 1]⟩ }

def futSlow : Future Nat Nat :=
  { started := true, done := false, result := Except.ok 3, _scope := ⟨[some 2]⟩ }

def stBulk : AsyncLibrary Nat Nat :=
  { _future := [(0, futDoneA), (1, futDoneB), (2, futSlow)], _last_thread_handle := 3 }

/-- C2 is violated by the code: with three dispatched items of which one is
unfinished at the timeout, `async_get_all` raises AttributeError — `futures`
is `list(future.values())`, a list with no `.items()` method — instead of
restoring the unfinished entry and raising
`TimeoutError('1 (of 3) futures unfinished')`.  The registry, already
cleared, is not repopulated: the pending handle 2 is lost to any later
`get_all` or `get`. -/
theorem async_get_all_timeout_bug :
    stBulk.async_get_all (some 10)
        = ({ stBulk with _future := [] },
           Except.error (GetAllError.attributeError
             "list object has no attribute items")) ∧
      dictLookup (stBulk.async_get_all (some 10)).1._future 2 = none :=
  ⟨rfl, rfl⟩

theorem filter_not_done_eq_nil {V E : Type} (l : List (Future V E))
    (hdone : ∀ f ∈ l, f.done = true) : l.filter (fun f => !f.done) = [] := by
  rw [List.filter_eq_nil_iff]
  intro f hf
  simp [hdone f hf]

theorem filter_done_eq_self {V E : Type} (l : List (Future V E))
    (hdone : ∀ f ∈ l, f.done = true) : l.filter (fun f => f.done) = l :=
  List.filter_eq_self.mpr hdone

/-- C7: when every dispatched item completes within the timeout, `get_all`
consumes the whole snapshot at once — it clears the registry and the wait
covers the full set rather than streaming partial results — and then
propagates the first failure encountered among the completed items: the work
item's own error, surfaced only at this retrieval. -/
theorem async_get_all_first_failure {V E : Type} (st : AsyncLibrary V E)
    (tmo : Option Nat) (e : E)
    (hdone : ∀ f ∈ st._future.map (fun kv => kv.2), f.done = true)
    (hfail : firstRaised (st._future.map (fun kv => kv.2)) = some e) :
    st.async_get_all tmo
      = ({ st with _future := [] }, Except.error (GetAllError.raised e)) := by
  unfold AsyncLibrary.async_get_all
  cases tmo with
  | none => simp [hfail]
  | some T =>
      have hnd := filter_not_done_eq_nil _ hdone
      have hdn := filter_done_eq_self _ hdone
      simp [hnd, hdn, hfail]

/-- Two completed items, the second of which failed with error 7. -/
def futFail : Future Nat Nat :=
  { started := true, done := true, result := Except.error 7, _scope := ⟨[some 1]⟩ }

def stFailW : AsyncLibrary Nat Nat :=
  { _future := [(0, futDoneA), (1, futFail)], _last_thread_handle := 2 }

theorem async_get_all_first_failure_witness :
    stFailW.async_get_all (some 4)
      = ({ stFailW with _future := [] }, Except.error (GetAllError.raised 7)) :=
  async_get_all_first_failure stFailW (some 4) 7 (by decide) rfl

theorem firstRaised_eq_none {V E : Type} (l : List (Future V E))
    (h : ∀ f ∈ l, ∃ v, f.result = Except.ok v) : firstRaised l = none := by
  induction l with
  | nil => rfl
  | cons f rest ih =>
      obtain ⟨v, hv⟩ := h f (List.mem_cons_self f rest)
      simp only [firstRaised, hv]
      exact ih (fun g hg => h g (List.mem_cons_of_mem f hg))

/-- C10: when every dispatched item completes within the timeout and none of
them failed, `get_all` returns `None`: the `Unit` outcome carries none of the
completed work items' return values — the bulk-retrieval path discards them
and never delivers them to the caller. -/
theorem async_get_all_discards_values {V E : Type} (st : AsyncLibrary V E)
    (tmo : Option Nat)
    (hdone : ∀ f ∈ st._future.map (fun kv => kv.2), f.done = true)
    (hok : ∀ f ∈ st._future.map (fun kv => kv.2), ∃ v, f.result = Except.ok v) :
    st.async_get_all tmo = ({ st with _future := [] }, Except.ok ()) := by
  have hfr : firstRaised (st._future.map (fun kv => kv.2)) = none :=
    firstRaised_eq_none _ hok
  unfold AsyncLibrary.async_get_all
  cases tmo with
  | none => simp [hfr]
  | some T =>
      have hnd := filter_not_done_eq_nil _ hdone
      have hdn := filter_done_eq_self _ hdone
      simp [hnd, hdn, hfr]

def stOkAllW : AsyncLibrary Nat Nat :=
  { _future := [(0, futDoneA), (1, futDoneB)], _last_thread_handle := 2 }

theorem async_get_all_discards_values_witness :
    stOkAllW.async_get_all (some 3) = ({ stOkAllW with _future := [] }, Except.ok ()) :=
  async_get_all_discards_values stOkAllW (some 3) (by decide)
    (by
      intro f hf
      simp only [stOkAllW, List.map_cons, List.map_nil, List.mem_cons,
        List.not_mem_nil, or_false] at hf
      rcases hf with h | h <;> subst h
      · exact ⟨1, rfl⟩
      · exact ⟨2, rfl⟩)

/-- Slot `i` of the context holds a `ScopedValue` whose fork storage for
token `tok` has been discarded. -/
def KilledAt {V : Type} (ctx : List (ScopedValue V)) (i tok : Nat) : Prop :=
  ∃ sv, ctx.get? i = some sv ∧ sv.forks tok = none

theorem scopedValue_kill_forks_none {V : Type} (sv : ScopedValue V) (tok tok' : Nat)
    (h : sv.forks tok = none) : (sv.kill tok').forks tok = none := by
  by_cases hk : tok = tok' <;> simp [ScopedValue.kill, upd, hk, h]

theorem contextKill_length {V : Type} (sc : ScopedContext) (ctx : List (ScopedValue V)) :
    ((sc.kill ctx).1).length = ctx.length := by
  simp [ScopedContext.kill, length_mapIdxFrom]

theorem contextKill_preserves_killedAt {V : Type} (sc : ScopedContext)
    (ctx : List (ScopedValue V)) (i tok : Nat) (h : KilledAt ctx i tok) :
    KilledAt ((sc.kill ctx).1) i tok := by
  obtain ⟨sv, hget, hfork⟩ := h
  have hmap := get?_mapIdxFrom (fun j s =>
    match sc._forks.get? j with
    | some (some tk) => s.kill tk
    | _ => s) 0 ctx i
  rw [hget] at hmap
  simp only [Nat.zero_add, Option.map_some'] at hmap
  rcases hc : sc._forks.get? i with _ | c
  · rw [hc] at hmap
    exact ⟨sv, hmap, hfork⟩
  · rcases c with _ | tk
    · rw [hc] at hmap
      exact ⟨sv, hmap, hfork⟩
    · rw [hc] at hmap
      exact ⟨sv.kill tk, hmap, scopedValue_kill_forks_none sv tok tk hfork⟩

theorem contextKill_establishes {V : Type} (sc : ScopedContext)
    (ctx : List (ScopedValue V)) (i tok : Nat) (hlen : i < ctx.length)
    (htok : sc._forks.get? i = some (some tok)) :
    KilledAt ((sc.kill ctx).1) i tok := by
  obtain ⟨sv, hget⟩ : ∃ sv, ctx.get? i = some sv :=
    ⟨ctx.get ⟨i, hlen⟩, List.get?_eq_get hlen⟩
  have hmap := get?_mapIdxFrom (fun j s =>
    match sc._forks.get? j with
    | some (some tk) => s.kill tk
    | _ => s) 0 ctx i
  rw [hget] at hmap
  simp only [Nat.zero_add, Option.map_some', htok] at hmap
  refine ⟨sv.kill tok, hmap, ?_⟩
  simp [ScopedValue.kill, upd_same]

theorem waitStep_preserves_killedAt {V E : Type}
    (acc : List (ScopedValue V) × List (Future V E)) (kv : Nat × Future V E)
    (i tok : Nat) (h : KilledAt acc.1 i tok) :
    KilledAt ((AsyncLibrary.waitStep acc kv).1) i tok := by
  unfold AsyncLibrary.waitStep
  split
  · exact contextKill_preserves_killedAt _ _ _ _ h
  · exact h

theorem waitStep_length {V E : Type}
    (acc : List (ScopedValue V) × List (Future V E)) (kv : Nat × Future V E) :
    ((AsyncLibrary.waitStep acc kv).1).length = acc.1.length := by
  unfold AsyncLibrary.waitStep
  split
  · exact contextKill_length _ _
  · rfl

theorem foldl_waitStep_preserves_killedAt {V E : Type}
    (l : List (Nat × Future V E)) (acc : List (ScopedValue V) × List (Future V E))
    (i tok : Nat) (h : KilledAt acc.1 i tok) :
    KilledAt ((l.foldl AsyncLibrary.waitStep acc).1) i tok := by
  induction l generalizing acc with
  | nil => exact h
  | cons kv tl ih =>
      rw [List.foldl_cons]
      exact ih _ (waitStep_preserves_killedAt acc kv i tok h)

theorem foldl_waitStep_killed {V E : Type} (l : List (Nat × Future V E))
    (acc : List (ScopedValue V) × List (Future V E)) (k : Nat) (f : Future V E)
    (i tok : Nat) (hmem : (k, f) ∈ l) (hcan : f.cancel = true)
    (htok : f._scope._forks.get? i = some (some tok)) (hlen : i < acc.1.length) :
    KilledAt ((l.foldl AsyncLibrary.waitStep acc).1) i tok := by
  induction l generalizing acc with
  | nil => cases hmem
  | cons kv tl ih =>
      rw [List.foldl_cons]
      rcases List.mem_cons.mp hmem with heq | hmem'
      · apply foldl_waitStep_preserves_killedAt
        rw [← heq]
        unfold AsyncLibrary.waitStep
        rw [if_pos hcan]
        exact contextKill_establishes _ _ _ _ hlen htok
      · apply ih _ hmem'
        rw [waitStep_length]
        exact hlen

theorem foldl_waitStep_collect {V E : Type} (l : List (Nat × Future V E))
    (ctx : List (ScopedValue V)) (fs : List (Future V E)) :
    (l.foldl AsyncLibrary.waitStep (ctx, fs)).2
      = fs ++ (l.map (fun kv => kv.2)).filter (fun f => !f.cancel) := by
  induction l generalizing ctx fs with
  | nil => simp
  | cons kv tl ih =>
      rw [List.foldl_cons]
      by_cases hc : kv.2.cancel
      · simp only [AsyncLibrary.waitStep, hc, if_pos]
        rw [ih]
        simp [List.filter_cons, hc]
      · simp only [AsyncLibrary.waitStep, hc, if_neg]
        rw [ih]
        simp [List.filter_cons, hc]

/-- C5: shutdown drain (`_wait_all`, run at suite end and process close)
empties the registry; every entry whose cancellation succeeds has its scope
killed immediately and synchronously — its recorded fork token is gone from
the slot's storage by the time the drain returns — while the entries whose
cancellation fails are exactly the ones waited on for natural completion.
No branch consults the futures' results, so nothing is re-raised to the
shutdown caller even when every entry was cancelled. -/
theorem wait_all_drains {V E : Type} (st : AsyncLibrary V E)
    (ctx : List (ScopedValue V)) (k : Nat) (f : Future V E) (i tok : Nat)
    (hmem : (k, f) ∈ st._future) (hcan : f.cancel = true)
    (htok : f._scope._forks.get? i = some (some tok)) (hlen : i < ctx.length) :
    ((st._wait_all ctx).1)._future = [] ∧
      (st._wait_all ctx).2.2
          = (st._future.map (fun kv => kv.2)).filter (fun g => !g.cancel) ∧
      KilledAt ((st._wait_all ctx).2.1) i tok := by
  refine ⟨rfl, ?_, ?_⟩
  · exact foldl_waitStep_collect st._future ctx []
  · exact foldl_waitStep_killed st._future (ctx, []) k f i tok hmem hcan htok hlen

/-- A registry with one not-yet-started entry (cancellable) owning token 3 of
slot 0, and one already running entry; slot 0 stores fork value 8 under
token 3. -/
def futCancellableW : Future Nat Nat :=
  { started := false, done := false, result := Except.ok 0, _scope := ⟨[some 3]⟩ }

def futRunningW : Future Nat Nat :=
  { started := true, done := false, result := Except.ok 1, _scope := ⟨[some 4]⟩ }

def stDrainW : AsyncLibrary Nat Nat :=
  { _future := [(0, futCancellableW), (1, futRunningW)], _last_thread_handle := 2 }

def ctxDrainW : List (ScopedValue Nat) :=
  [{ default := 0, forkvalue := none, forks := upd (fun _ => none) 3 (some 8),
     active := fun _ => none, nextToken := 4 }]

theorem wait_all_drains_witness :
    ((stDrainW._wait_all ctxDrainW).1)._future = [] ∧
      (stDrainW._wait_all ctxDrainW).2.2
          = (stDrainW._future.map (fun kv => kv.2)).filter (fun g => !g.cancel) ∧
      KilledAt ((stDrainW._wait_all ctxDrainW).2.1) 0 3 :=
  wait_all_drains stDrainW ctxDrainW 0 futCancellableW 0 3
    (List.Mem.head _) rfl rfl (by simp [ctxDrainW])

end RobotAsync
